import Mathlib

/-!
Shallow embedding of the `pantry` Go package: a generic in-memory key-value
store with per-entry absolute expiration timestamps, a background sweep, and
an optional one-file-per-key persistence layer.

The embedding follows the generic persistence-capable iteration of the source
(`Pantry[T]` with `Set(key, value, expiration) *Result[T]`, `Get`, `Remove`,
`IsEmpty`, `Load`, `Close`, and `Result.Persist`).  Time is passed explicitly
as an `Int` (the source's `time.Now().UnixNano()` value); the Go map is
embedded as an association list with unique-key update semantics; the
persistence directory is embedded as an explicit file-system value.
-/

namespace Pantry

/-- `Item[T any] { Value T; Expires int64 }`: one stored value together with
its absolute expiration timestamp in nanoseconds. -/
structure Item (α : Type) where
  value : α
  expires : Int
  deriving Repr, DecidableEq

/-- The store's entry map `map[string]Item[T]`, embedded as an association
list.  All updates go through `storeSet` / `storeErase`, which keep at most
one binding per key, matching Go map semantics. -/
abbrev Store (α : Type) := List (String × Item α)

/-- Go map lookup `item, found := store[key]` (the `Option` is `none` exactly
when `found` is `false`). -/
def listGet {β : Type} : List (String × β) → String → Option β
  | [], _ => none
  | (k, b) :: rest, key => if k = key then some b else listGet rest key

/-- Go map deletion `delete(store, key)`: removes every binding of `key`. -/
def listErase {β : Type} : List (String × β) → String → List (String × β)
  | [], _ => []
  | (k, b) :: rest, key =>
      if k = key then listErase rest key else (k, b) :: listErase rest key

/-- Go map insertion `store[key] = b`: inserts or overwrites the binding. -/
def listSet {β : Type} (l : List (String × β)) (key : String) (b : β) :
    List (String × β) :=
  (key, b) :: listErase l key

/-- `Pantry.Get`: look the key up; if it is found but `now > item.Expires`,
return the zero value of `T` and `false`; otherwise return `(item.Value,
found)`.  A missing key yields the zero `Item`, so that branch also returns
`(zero value, false)`. -/
def pGet {α : Type} [Inhabited α] (now : Int) (store : Store α) (key : String) :
    α × Bool :=
  match listGet store key with
  | some item => if now > item.expires then (default, false) else (item.value, true)
  | none => (default, false)

/-- `Result[T] { action string; key string; item Item[T] }`.  The source's
`pantry *Pantry[T]` back-reference is represented by passing the pantry's
`persistencePath` (the only field `Persist` reads from it) to `persist`
explicitly. -/
structure Result (α : Type) where
  action : String
  key : String
  item : Item α
  deriving Repr, DecidableEq

/-- `Pantry.Set(key, value, expiration)`: builds
`Item{Value: value, Expires: time.Now().Add(expiration).UnixNano()}`, stores
it under `key`, and returns the updated store together with the snapshot-
bearing `Result{action: "set", key, item}`. -/
def pSet {α : Type} (now : Int) (store : Store α) (key : String) (value : α)
    (expiration : Int) : Store α × Result α :=
  let item : Item α := ⟨value, now + expiration⟩
  (listSet store key item, ⟨"set", key, item⟩)

/-- `Pantry.Remove(key)`: deletes the entry unconditionally and returns
`Result{action: "remove", key}`; the `item` field is left at Go's zero
`Item[T]`. -/
def pRemove {α : Type} [Inhabited α] (store : Store α) (key : String) :
    Store α × Result α :=
  (listErase store key, ⟨"remove", key, ⟨default, 0⟩⟩)

/-- `Pantry.IsEmpty`: `len(pantry.store) == 0`, with no expiration
filtering. -/
def pIsEmpty {α : Type} (store : Store α) : Bool :=
  store.length == 0

/-- The bytes of one persisted file: either a well-formed gob encoding of an
`Item` (what `Result.Persist` writes) or content that fails to read or
decode. -/
inductive FileData (α : Type) where
  | good (item : Item α)
  | corrupt
  deriving Repr, DecidableEq

/-- The persistence directory as seen by `Persist`, `Load` and the sweeper:
whether the directory exists, and one file per name inside it. -/
structure FS (α : Type) where
  dirExists : Bool
  files : List (String × FileData α)
  deriving Repr, DecidableEq

/-- `FileData.isGood`: decidable test that a file decodes. -/
def FileData.isGood {α : Type} : FileData α → Bool
  | good _ => true
  | corrupt => false

/-- `Result.Persist`: fails with `"persistence path is missing"` when no
persistence directory is configured; otherwise creates the directory if
absent (`os.Mkdir`), then for a `"set"` action gob-encodes the snapshot item
and writes it to the file named after the key, for a `"remove"` action calls
`os.Remove` on that file — which reports `no such file or directory` when the
file is absent — and for any other action fails with `"invalid action"`.
Returns the error (`none` for success) and the resulting directory state. -/
def persist {α : Type} (persistencePath : String) (fs : FS α) (result : Result α) :
    Option String × FS α :=
  if persistencePath = "" then
    (some "persistence path is missing", fs)
  else
    let fs1 := if fs.dirExists then fs else { fs with dirExists := true }
    let fileName := persistencePath ++ "/" ++ result.key
    if result.action = "set" then
      (none, { fs1 with files := listSet fs1.files result.key (FileData.good result.item) })
    else if result.action = "remove" then
      match listGet fs1.files result.key with
      | some _ => (none, { fs1 with files := listErase fs1.files result.key })
      | none => (some ("remove " ++ fileName ++ ": no such file or directory"), fs1)
    else
      (some "invalid action", fs1)

/-- The body of `Pantry.Load`'s loop over `ioutil.ReadDir`: each file is read
and gob-decoded; a read or decode failure returns that error at once, with
the entries inserted so far still in `pantry.store`; a decoded item is
inserted under the file's name. -/
def loadFiles {α : Type} : List (String × FileData α) → Store α → Store α × Option String
  | [], store => (store, none)
  | (_, FileData.corrupt) :: _, store => (store, some "gob: decode error")
  | (name, FileData.good item) :: rest, store => loadFiles rest (listSet store name item)

/-- `Pantry.Load`: a pantry with no configured path returns `nil`
immediately; otherwise the directory is created if absent and every file in
it is decoded and inserted in turn (`loadFiles`). -/
def pLoad {α : Type} (persistencePath : String) (fs : FS α) (store : Store α) :
    Store α × Option String :=
  if persistencePath = "" then (store, none)
  else loadFiles fs.files store

/-- One tick of the background sweep: scan every entry under the exclusive
lock and delete any with `time.Now().UnixNano() > item.Expires`. -/
def sweepTick {α : Type} (now : Int) (store : Store α) : Store α :=
  store.filter (fun kv => !(now > kv.2.expires))

/-- The sweep loop's reaction to the external cancellation signal
(`ctx.Done()`): `pantry.store = make(map[string]item[T])` and return. -/
def closeStore {α : Type} (_ : Store α) : Store α :=
  []

/-- `Result.Persist` seen as a transformer of the whole pantry state
(in-memory store plus persistence directory).  The body of `Persist` in the
source reads `result.pantry.persistencePath` and performs file I/O only;
it contains no write to `pantry.store`, so the store component passes
through unchanged. -/
def persistStep {α : Type} (persistencePath : String) (r : Result α) :
    Store α × FS α → Option String × (Store α × FS α) :=
  fun sfs =>
    ((persist persistencePath sfs.2 r).1, (sfs.1, (persist persistencePath sfs.2 r).2))

/-! ### Association-list lemmas (Go map semantics) -/

theorem listGet_listErase_self {β : Type} (l : List (String × β)) (k : String) :
    listGet (listErase l k) k = none := by
  induction l with
  | nil => rfl
  | cons p rest ih =>
    obtain ⟨k0, b⟩ := p
    by_cases hk : k0 = k
    · simpa [listErase, hk] using ih
    · simp [listErase, hk, listGet, ih]

theorem listGet_listErase_ne {β : Type} (l : List (String × β)) (k k' : String)
    (hne : k' ≠ k) : listGet (listErase l k) k' = listGet l k' := by
  induction l with
  | nil => rfl
  | cons p rest ih =>
    obtain ⟨k0, b⟩ := p
    by_cases hk : k0 = k
    · subst hk
      simp [listErase, listGet, Ne.symm hne, ih]
    · by_cases hk' : k0 = k'
      · subst hk'
        simp [listErase, hk, listGet]
      · simp [listErase, hk, listGet, hk', ih]

theorem listErase_idem {β : Type} (l : List (String × β)) (k : String) :
    listErase (listErase l k) k = listErase l k := by
  induction l with
  | nil => rfl
  | cons p rest ih =>
    obtain ⟨k0, b⟩ := p
    by_cases hk : k0 = k
    · simp [listErase, hk, ih]
    · simp [listErase, hk, ih]

theorem listGet_listSet_self {β : Type} (l : List (String × β)) (k : String) (b : β) :
    listGet (listSet l k b) k = some b := by
  simp [listSet, listGet]

theorem listGet_listSet_ne {β : Type} (l : List (String × β)) (k k' : String) (b : β)
    (hne : k' ≠ k) : listGet (listSet l k b) k' = listGet l k' := by
  simp [listSet, listGet, Ne.symm hne, listGet_listErase_ne l k k' hne]

theorem pGet_congr {α : Type} [Inhabited α] (now : Int) (st st' : Store α) (k : String)
    (h : listGet st k = listGet st' k) : pGet now st k = pGet now st' k := by
  simp [pGet, h]

theorem listErase_keys_ne {β : Type} (l : List (String × β)) (k : String) :
    ∀ p ∈ listErase l k, p.1 ≠ k := by
  induction l with
  | nil => intro p hp; cases hp
  | cons q rest ih =>
    obtain ⟨k0, b⟩ := q
    intro p hp
    by_cases hk : k0 = k
    · exact ih p (by simpa [listErase, hk] using hp)
    · rcases (by simpa [listErase, hk] using hp : p = (k0, b) ∨ p ∈ listErase rest k) with
        h | h
      · simpa [h] using hk
      · exact ih p h

theorem listErase_mem_subset {β : Type} (l : List (String × β)) (k : String) :
    ∀ p ∈ listErase l k, p ∈ l := by
  induction l with
  | nil => intro p hp; cases hp
  | cons q rest ih =>
    obtain ⟨k0, b⟩ := q
    intro p hp
    by_cases hk : k0 = k
    · exact List.mem_cons_of_mem _ (ih p (by simpa [listErase, hk] using hp))
    · rcases (by simpa [listErase, hk] using hp : p = (k0, b) ∨ p ∈ listErase rest k) with
        h | h
      · simp [h]
      · exact List.mem_cons_of_mem _ (ih p h)

/-! ### Load lemmas -/

theorem loadFiles_all_good {α : Type} (files : List (String × FileData α)) (st : Store α)
    (hgood : ∀ p ∈ files, FileData.isGood p.2 = true) :
    (loadFiles files st).2 = none := by
  induction files generalizing st with
  | nil => rfl
  | cons p rest ih =>
    obtain ⟨name, d⟩ := p
    cases d with
    | corrupt => simpa [FileData.isGood] using hgood (name, FileData.corrupt) (by simp)
    | good item =>
      simp only [loadFiles]
      exact ih _ (fun q hq => hgood q (List.mem_cons_of_mem _ hq))

theorem loadFiles_get_not_mem {α : Type} (files : List (String × FileData α))
    (st : Store α) (k : String) (hk : ∀ p ∈ files, p.1 ≠ k) :
    listGet (loadFiles files st).1 k = listGet st k := by
  induction files generalizing st with
  | nil => rfl
  | cons p rest ih =>
    obtain ⟨name, d⟩ := p
    cases d with
    | corrupt => rfl
    | good item =>
      simp only [loadFiles]
      rw [ih _ (fun q hq => hk q (List.mem_cons_of_mem _ hq))]
      exact listGet_listSet_ne st name k item
        (fun h => hk (name, FileData.good item) (by simp) h.symm)

/-! ### Claim theorems -/

/-- C1: for every key `k`, value `v` and duration `ttl > 0`, immediately
after `Set(k, v, ttl)` — that is, at any read time `t` within `ttl` of the
set — `Get(k)` returns `(v, true)`. -/
theorem set_then_get {α : Type} [Inhabited α] (st : Store α) (k : String) (v : α)
    (ttl now t : Int) (_httl : 0 < ttl) (ht : t ≤ now + ttl) :
    pGet t (pSet now st k v ttl).1 k = (v, true) := by
  simp only [pSet, pGet, listGet_listSet_self]
  rw [if_neg (by omega)]

theorem set_then_get_witness :
    (0 : Int) < 10 ∧ (5 : Int) ≤ 0 + 10 ∧
      pGet 5 (pSet 0 ([] : Store Int) "a" 42 10).1 "a" = (42, true) :=
  ⟨by decide, by decide, set_then_get [] "a" 42 10 0 5 (by decide) (by decide)⟩

/-- C2: for a key `k` whose entry is `it`, `Get(k)` returns the stored value
and `true` iff `now ≤ it.expires`; and once the entry has expired but is not
yet swept, `Get(k)` returns exactly what it returns for a missing key: the
zero value and `false`. -/
theorem get_expired_like_missing {α : Type} [Inhabited α] (st : Store α) (k : String)
    (it : Item α) (now : Int) (h : listGet st k = some it) :
    (pGet now st k = (it.value, true) ↔ now ≤ it.expires) ∧
    (it.expires < now →
      pGet now st k = pGet now (listErase st k) k ∧
      pGet now st k = ((default : α), false)) := by
  have h1 : pGet now st k = if now > it.expires then ((default : α), false)
      else (it.value, true) := by
    simp [pGet, h]
  by_cases hc : now > it.expires
  · rw [if_pos hc] at h1
    refine ⟨⟨fun heq => ?_, fun hle => by omega⟩, fun _ => ?_⟩
    · rw [h1] at heq
      exact absurd (congrArg Prod.snd heq) (by simp)
    · have h2 : pGet now (listErase st k) k = ((default : α), false) := by
        simp [pGet, listGet_listErase_self]
      exact ⟨h1.trans h2.symm, h1⟩
  · rw [if_neg hc] at h1
    push_neg at hc
    exact ⟨⟨fun _ => hc, fun _ => h1⟩, fun hlt => absurd hlt (by omega)⟩

theorem get_expired_like_missing_witness :
    (pGet 50 [("a", (⟨1, 100⟩ : Item Int))] "a" = ((1 : Int), true) ↔ (50 : Int) ≤ 100) ∧
    ((100 : Int) < 50 →
      pGet 50 [("a", (⟨1, 100⟩ : Item Int))] "a" =
        pGet 50 (listErase [("a", (⟨1, 100⟩ : Item Int))] "a") "a" ∧
      pGet 50 [("a", (⟨1, 100⟩ : Item Int))] "a" = ((default : Int), false)) :=
  get_expired_like_missing [("a", ⟨1, 100⟩)] "a" ⟨1, 100⟩ 50 (by decide)

/-- C7: `Remove(k)` is total (it returns no error), immediately afterwards
`Get(k)` returns the zero value and `false`, and a second `Remove(k)` leaves
the store exactly as the first did. -/
theorem remove_then_get {α : Type} [Inhabited α] (st : Store α) (k : String) (now : Int) :
    pGet now (pRemove st k).1 k = ((default : α), false) ∧
    (pRemove (α := α) (pRemove st k).1 k).1 = (pRemove st k).1 := by
  constructor
  · simp [pRemove, pGet, listGet_listErase_self]
  · simp [pRemove, listErase_idem]

/-- C8: `IsEmpty()` is true iff the underlying map holds zero entries,
counting expired-but-unswept ones: a store holding only an expired entry
reports `IsEmpty() = false` even though `Get` on that key reports not
found. -/
theorem isEmpty_physical_occupancy {α : Type} [Inhabited α] (st : Store α) :
    (pIsEmpty st = true ↔ st = []) ∧
    (∀ k it now, st = [(k, it)] → it.expires < now →
      pIsEmpty st = false ∧ pGet now st k = ((default : α), false)) := by
  constructor
  · simp [pIsEmpty, List.length_eq_zero]
  · rintro k it now rfl hexp
    refine ⟨rfl, ?_⟩
    simp [pGet, listGet, show now > it.expires from hexp]

theorem isEmpty_physical_occupancy_witness :
    pIsEmpty [("a", (⟨7, 10⟩ : Item Int))] = false ∧
    pGet 20 [("a", (⟨7, 10⟩ : Item Int))] "a" = ((default : Int), false) :=
  (isEmpty_physical_occupancy [("a", ⟨7, 10⟩)]).2 "a" ⟨7, 10⟩ 20 rfl (by decide)

/-- C9: one sweep tick keeps exactly the entries whose expiration has not
passed (an entry survives the tick iff it was present and `now ≤ expires`),
and the cancellation branch of the sweep loop leaves the map empty as its
final state transition. -/
theorem sweep_tick_and_close {α : Type} (st : Store α) (now : Int) :
    (∀ k (it : Item α), (k, it) ∈ sweepTick now st ↔ ((k, it) ∈ st ∧ now ≤ it.expires)) ∧
    closeStore st = ([] : Store α) := by
  refine ⟨fun k it => ?_, rfl⟩
  simp [sweepTick, List.mem_filter, not_lt]

/-- C10: `Set(k, v, ttl)` and `Remove(k)` leave the entry of every other key
`k'` (value and expiration alike) unchanged, and `Persist` leaves the entire
in-memory map unchanged, transforming only the file-system component of the
pantry state. -/
theorem frame_per_key {α : Type} [Inhabited α] (st : Store α) (k k' : String) (v : α)
    (ttl now : Int) (path : String) (fs : FS α) (r : Result α) (hne : k' ≠ k) :
    listGet (pSet now st k v ttl).1 k' = listGet st k' ∧
    listGet (pRemove st k).1 k' = listGet st k' ∧
    (persistStep path r (st, fs)).2.1 = st := by
  refine ⟨?_, ?_, rfl⟩
  · simpa [pSet] using listGet_listSet_ne st k k' ⟨v, now + ttl⟩ hne
  · simpa [pRemove] using listGet_listErase_ne st k k' hne

theorem frame_per_key_witness :
    listGet (pSet 0 [("b", (⟨9, 50⟩ : Item Int))] "a" 1 10).1 "b" =
      listGet [("b", (⟨9, 50⟩ : Item Int))] "b" ∧
    listGet (pRemove [("b", (⟨9, 50⟩ : Item Int))] "a").1 "b" =
      listGet [("b", (⟨9, 50⟩ : Item Int))] "b" ∧
    (persistStep "d" (⟨"set", "a", ⟨1, 10⟩⟩ : Result Int)
        ([("b", ⟨9, 50⟩)], ⟨true, []⟩)).2.1 = [("b", ⟨9, 50⟩)] :=
  frame_per_key [("b", ⟨9, 50⟩)] "a" "b" 1 10 0 "d" ⟨true, []⟩ ⟨"set", "a", ⟨1, 10⟩⟩
    (by decide)

/-- C6: on a store with no persistence directory configured (empty
`persistencePath`), every `Persist` call — whatever the outcome's action —
returns the configuration error `"persistence path is missing"` and leaves
the file system exactly as it was: no directory, file creation or deletion
happens. -/
theorem persist_no_path_config_error {α : Type} (fs : FS α) (r : Result α) :
    persist "" fs r = (some "persistence path is missing", fs) := by
  simp [persist]

/-- C4 counterexample: with a configured directory that exists and contains
no file named `"k"`, `Persist` on a remove outcome for `"k"` returns an
error (the unconditional `os.Remove` reports `no such file or directory`),
refuting the claim that it succeeds. -/
theorem persist_remove_missing_counterexample :
    (persist "dir" (⟨true, []⟩ : FS Int) ⟨"remove", "k", ⟨0, 0⟩⟩).1 ≠ none := by
  decide

/-- C4 amended: persisting a remove outcome for a key with no backing file
does not succeed: `Persist` calls `os.Remove` unconditionally and returns
its `no such file or directory` error (the file system is otherwise left
unchanged). -/
theorem persist_remove_missing_file {α : Type} (path : String) (fs : FS α)
    (k : String) (it : Item α) (hpath : path ≠ "") (hdir : fs.dirExists = true)
    (hfile : listGet fs.files k = none) :
    persist path fs ⟨"remove", k, it⟩ =
      (some ("remove " ++ path ++ "/" ++ k ++ ": no such file or directory"), fs) := by
  simp [persist, hpath, hdir, hfile, String.append_assoc]

theorem persist_remove_missing_file_witness :
    persist "d" (⟨true, []⟩ : FS Int) ⟨"remove", "k", ⟨3, 4⟩⟩ =
      (some ("remove " ++ "d" ++ "/" ++ "k" ++ ": no such file or directory"),
        (⟨true, []⟩ : FS Int)) :=
  persist_remove_missing_file "d" ⟨true, []⟩ "k" ⟨3, 4⟩ (by decide) rfl rfl

/-- C5 counterexample: loading a directory whose files are a well-formed
`"a"` followed by an undecodable `"b"` returns an error, yet the initially
empty in-memory map has been left partially populated with the entry from
`"a"`, refuting the no-partial-population part of the claim. -/
theorem load_partial_state_counterexample :
    (pLoad "d" ⟨true, [("a", FileData.good ⟨(1 : Int), 100⟩), ("b", FileData.corrupt)]⟩
        ([] : Store Int)).2.isSome = true ∧
    (pLoad "d" ⟨true, [("a", FileData.good ⟨(1 : Int), 100⟩), ("b", FileData.corrupt)]⟩
        ([] : Store Int)).1 ≠ ([] : Store Int) := by
  decide

/-- C5 amended: when the directory listing is some decodable files followed
by the first undecodable one, `Load` aborts there and returns the decode
error — it does not skip the file and continue — but the entries decoded
before the failure have already been inserted and remain in the in-memory
map. -/
theorem load_aborts_at_first_corrupt {α : Type} (path : String)
    (good1 : List (String × Item α)) (name : String)
    (rest : List (String × FileData α)) (st : Store α) (hpath : path ≠ "") :
    pLoad path
        ⟨true, (good1.map (fun p => (p.1, FileData.good p.2))) ++
          (name, FileData.corrupt) :: rest⟩ st =
      (good1.foldl (fun acc p => listSet acc p.1 p.2) st, some "gob: decode error") := by
  unfold pLoad
  rw [if_neg hpath]
  induction good1 generalizing st with
  | nil => rfl
  | cons p rest1 ih =>
    obtain ⟨n, it⟩ := p
    simpa [loadFiles] using ih (listSet st n it)

theorem load_aborts_at_first_corrupt_witness :
    pLoad "d"
        ⟨true, ([("a", (⟨1, 100⟩ : Item Int))].map (fun p => (p.1, FileData.good p.2))) ++
          ("b", FileData.corrupt) :: []⟩ ([] : Store Int) =
      ([("a", (⟨1, 100⟩ : Item Int))].foldl (fun acc p => listSet acc p.1 p.2)
          ([] : Store Int), some "gob: decode error") :=
  load_aborts_at_first_corrupt "d" [("a", ⟨1, 100⟩)] "b" [] [] (by decide)

/-- C3: with a configured directory whose existing files are all decodable,
persisting the set outcome for `k` succeeds, a fresh (empty) store loading
the resulting directory succeeds, the loaded entry for `k` carries exactly
the persisted value and absolute expiration, and `Get(k)` on the loaded
store agrees with `Get(k)` on the original store at every read time `t`. -/
theorem persist_load_roundtrip {α : Type} [Inhabited α] (path : String) (fs : FS α)
    (st : Store α) (k : String) (v : α) (ttl now t : Int) (hpath : path ≠ "")
    (hgood : ∀ p ∈ fs.files, FileData.isGood p.2 = true) :
    (persist path fs (pSet now st k v ttl).2).1 = none ∧
    (pLoad path (persist path fs (pSet now st k v ttl).2).2 []).2 = none ∧
    listGet (pLoad path (persist path fs (pSet now st k v ttl).2).2 []).1 k =
      some ⟨v, now + ttl⟩ ∧
    pGet t (pLoad path (persist path fs (pSet now st k v ttl).2).2 []).1 k =
      pGet t (pSet now st k v ttl).1 k := by
  have hfiles : (persist path fs (pSet now st k v ttl).2).2.files =
      (k, FileData.good ⟨v, now + ttl⟩) :: listErase fs.files k ∧
      (persist path fs (pSet now st k v ttl).2).1 = none := by
    unfold persist pSet
    rw [if_neg hpath]
    by_cases hd : fs.dirExists <;> simp [hd, listSet]
  refine ⟨hfiles.2, ?_, ?_, ?_⟩
  · rw [pLoad, if_neg hpath, hfiles.1]
    refine loadFiles_all_good _ _ ?_
    rintro p hp
    rcases List.mem_cons.mp hp with h | h
    · simp [h, FileData.isGood]
    · exact hgood p (listErase_mem_subset fs.files k p h)
  · rw [pLoad, if_neg hpath, hfiles.1]
    simp only [loadFiles]
    rw [loadFiles_get_not_mem _ _ _ (listErase_keys_ne fs.files k)]
    exact listGet_listSet_self [] k (⟨v, now + ttl⟩ : Item α)
  · refine pGet_congr t _ _ k ?_
    rw [pLoad, if_neg hpath, hfiles.1]
    simp only [loadFiles]
    rw [loadFiles_get_not_mem _ _ _ (listErase_keys_ne fs.files k)]
    rw [listGet_listSet_self [] k (⟨v, now + ttl⟩ : Item α)]
    simp [pSet, listGet_listSet_self]

theorem persist_load_roundtrip_witness :
    (persist "d" (⟨true, []⟩ : FS Int) (pSet 0 [] "k" 1 10).2).1 = none ∧
    (pLoad "d" (persist "d" (⟨true, []⟩ : FS Int) (pSet 0 [] "k" 1 10).2).2 []).2 = none ∧
    listGet (pLoad "d" (persist "d" (⟨true, []⟩ : FS Int) (pSet 0 [] "k" 1 10).2).2 []).1
        "k" = some ⟨1, 0 + 10⟩ ∧
    pGet 3 (pLoad "d" (persist "d" (⟨true, []⟩ : FS Int) (pSet 0 [] "k" 1 10).2).2 []).1
        "k" = pGet 3 (pSet 0 [] "k" 1 10).1 "k" :=
  persist_load_roundtrip "d" ⟨true, []⟩ [] "k" 1 10 0 3 (by decide) (by simp)

end Pantry
